import Mathlib

/-!
Verification of the naming-scheme and images-folder logic of the `lazyqa`
scripts (`common.py`, `batchltp.py`, `lazytp.py`).

Strings are modelled as Lean `String`s (lists of `Char`); the scripts only
ever build names from ASCII input, so Python's Unicode-aware character
classes `\d` and `[^\W_]` are modelled by `Char.isDigit` and
`Char.isAlphanum`, their restrictions to ASCII.
-/

/-- Separator between the components of a test case name (`common.SEPARATOR`). -/
def SEPARATOR : String := "_"

/-- Length of the id component (`common.ID_LEN`). -/
def ID_LEN : Nat := 3

/-- Characters removed by `camel_case`: `re.split("_| |\.|-", s)` splits at each
single occurrence of `_`, space, `.` or `-`. -/
def isSepSplitChar (c : Char) : Bool :=
  c == '_' || c == ' ' || c == '.' || c == '-'

/-- Model of `re.split("_| |\.|-", s)`: the pattern is a single character, so the
string is cut at every separator character, keeping empty components (Python's
`re.split` keeps the empty strings arising between two adjacent separators). -/
def pySplit : List Char → List (List Char)
  | [] => [[]]
  | c :: t =>
    if isSepSplitChar c then [] :: pySplit t
    else
      match pySplit t with
      | h :: r => (c :: h) :: r
      | [] => [[c]]

/-- Model of Python `str.title()` restricted to ASCII: the first cased (letter)
character of each run of letters is upper-cased and every other letter is
lower-cased; non-letters are kept and reset the run. The flag records whether
the previous character was a letter. -/
def titleGo : Bool → List Char → List Char
  | _, [] => []
  | prevCased, c :: cs =>
    if c.isAlpha then (if prevCased then c.toLower else c.toUpper) :: titleGo true cs
    else c :: titleGo false cs

/-- List-level body of `common.camel_case`: first component unchanged, every
later component passed through `str.title()`, all concatenated. -/
def camelChars (l : List Char) : List Char :=
  match pySplit l with
  | [] => []
  | c0 :: rest => c0 ++ (rest.map (titleGo false)).flatten

/-- Model of `common.camel_case` (common.py lines 23-26). -/
def camel_case (s : String) : String :=
  ⟨camelChars s.data⟩

/-- The transformation claim C2 ascribes to `camel_case`: upper-case only the
first character of each later component, leaving its remaining characters
unchanged. (The code instead applies Python `str.title()`.) -/
def upFirstChars : List Char → List Char
  | [] => []
  | c :: cs => c.toUpper :: cs

/-- The camel-casing function described by the spec sentence of claim C2,
to be compared against the `camel_case` of the code. -/
def camel_case_claimed (s : String) : String :=
  match pySplit s.data with
  | [] => ""
  | c0 :: rest => ⟨c0 ++ (rest.map upFirstChars).flatten⟩

/-- Result of `common.parse_test_case_name` (a Python dict with the four
captured groups). Group 4 of the regex is `([^\W_]*)` and participates in
every successful match, so `m.group(4)` is a `str`; its Python static type is
`Optional[str]`, which is what `Option String` models. -/
structure TestCaseRecord where
  id : String
  sha1 : String
  dataset_name : String
  optional_description : Option String
deriving DecidableEq

/-- Errors a call into the parsing helpers can raise. The code raises
`AttributeError` (calling `.group` on `None` when `re.match` fails);
`NotATestCaseNameError` is the error kind named by the spec, which no code in
the repository defines or raises — it is included so that claim C4 can be
stated. -/
inductive PyError where
  | attributeError
  | notATestCaseNameError
deriving DecidableEq

deriving instance DecidableEq for Except

/-- Matching of `test_case_name_regex()` (common.py lines 280-294), the pattern
`(\d+)_([^\W_]+)_([^\W_]+)_?([^\W_]*)` applied with `re.match` (anchored at the
start only; trailing unmatched characters are ignored).

Each greedy `X+` is followed by a character (`_`) that is not in its class, so
backtracking can never help and each group captures exactly the maximal run of
its class. After group 3's maximal run the next character is not alphanumeric;
the greedy `_?` consumes a `_` when one is present, and group 4 `([^\W_]*)`
then captures the maximal alphanumeric run — the empty string when no `_`
follows. Group 4 therefore participates in every match. -/
def parseChars (l : List Char) : Option TestCaseRecord :=
  let idp := l.takeWhile Char.isDigit
  if idp.isEmpty then none else
  match l.dropWhile Char.isDigit with
  | '_' :: r2 =>
    let sha := r2.takeWhile Char.isAlphanum
    if sha.isEmpty then none else
    match r2.dropWhile Char.isAlphanum with
    | '_' :: r4 =>
      let ds := r4.takeWhile Char.isAlphanum
      if ds.isEmpty then none else
      let desc :=
        match r4.dropWhile Char.isAlphanum with
        | '_' :: r6 => r6.takeWhile Char.isAlphanum
        | _ => []
      some ⟨⟨idp⟩, ⟨sha⟩, ⟨ds⟩, some ⟨desc⟩⟩
    | _ => none
  | _ => none

/-- Model of `common.parse_test_case_name` (common.py lines 297-303). When the
regex does not match, `m` is `None` and `m.group(1)` raises `AttributeError`. -/
def parse_test_case_name (name : String) : Except PyError TestCaseRecord :=
  match parseChars name.data with
  | some r => .ok r
  | none => .error .attributeError

/-- Model of `common.is_test_case_name`: `bool(test_case_name_regex().match(s))`. -/
def is_test_case_name (s : String) : Bool :=
  (parseChars s.data).isSome

/-- Model of `common.create_test_case_name` (common.py lines 311-316); the
Python parameter `optional_description` defaults to `None`. -/
def create_test_case_name (_id : String) (sha1 : String) (project_name : String)
    (optional_description : Option String) : String :=
  let result := _id ++ SEPARATOR ++ sha1 ++ SEPARATOR ++ camel_case project_name
  match optional_description with
  | some d => result ++ "_" ++ camel_case d
  | none => result

/-- Value of Python `int(s)` on a string of decimal digits. -/
def pyIntOfDigits (l : List Char) : Nat :=
  l.foldl (fun a c => 10 * a + (c.toNat - 48)) 0

/-- Big-endian decimal digits of `n`, with enough fuel; `natToDigitsAux n n`
computes the digits of any `n ≥ 1`. -/
def natToDigitsAux : Nat → Nat → List Char
  | 0, _ => []
  | fuel + 1, n =>
    if n = 0 then []
    else natToDigitsAux fuel (n / 10) ++ [Nat.digitChar (n % 10)]

/-- Value of Python `str(n)` for a natural number `n`. -/
def pyStr (n : Nat) : String :=
  if n = 0 then "0" else ⟨natToDigitsAux n n⟩

/-- Model of `common.increment_id` (common.py lines 319-325). Python's
`'0' * k` for negative `k` is the empty string, which `Nat` subtraction
reproduces. -/
def increment_id (_id : String) : String :=
  let mod := 10 ^ ID_LEN
  let next_id := pyStr ((pyIntOfDigits _id.data + 1) % mod)
  let next_id := if next_id = "0" then "1" else next_id
  ⟨List.replicate (ID_LEN - next_id.length) '0'⟩ ++ next_id

/-- Python string comparison `a < b`: lexicographic by code point, a proper
prefix is smaller. -/
def pyStrLt : List Char → List Char → Bool
  | [], [] => false
  | [], _ :: _ => true
  | _ :: _, [] => false
  | x :: xs, y :: ys =>
    if x = y then pyStrLt xs ys else decide (x.toNat < y.toNat)

/-- One step of Python `max` over strings: keep the current value unless the
next element is strictly greater. -/
def pyMax (a b : String) : String :=
  if pyStrLt a.data b.data then b else a

/-- Model of `common.find_highest_id` (common.py lines 328-333). A directory is
modelled by the list of names of its immediate entries. The Python code
collects the ids into a `set` and takes `max`; deduplication does not change
the maximum, so the ids are kept as a list here. The parse in the
comprehension never fails because the names were filtered with
`is_test_case_name`, which the `filterMap` mirrors. -/
def find_highest_id (entries : List String) : String :=
  let ids := (entries.filter is_test_case_name).filterMap fun n =>
    match parse_test_case_name n with
    | .ok r => some r.id
    | .error _ => none
  match ids with
  | [] => ⟨List.replicate ID_LEN '0'⟩
  | h :: t => t.foldl pyMax h

/-- Model of `common.get_next_id` (common.py lines 336-338). -/
def get_next_id (entries : List String) : String :=
  increment_id (find_highest_id entries)

/-- An immediate entry of a project directory: its name, whether it is a
directory, and (for directories) the names of the files directly inside it. -/
structure FsEntry where
  name : String
  isDir : Bool
  files : List String
deriving DecidableEq

/-- A project directory: its path (printed into error messages) and its
immediate entries, in iteration order. -/
structure Folder where
  name : String
  entries : List FsEntry
deriving DecidableEq

/-- The image extensions of `batchltp.contains_images` (batchltp.py line 12). -/
def image_extensions : List String :=
  ["tif", "TIF", "tiff", "TIFF", "jpg", "JPG", "jpeg", "JPEG"]

/-- A file name matches the glob `*.{extension}` exactly when it ends with
`.` + extension (glob `*` matches any, possibly empty, sequence). -/
def hasImageSuffix (fname : String) : Bool :=
  image_extensions.any fun ext => ("." ++ ext).data.isSuffixOf fname.data

/-- Model of `batchltp.contains_images` (batchltp.py lines 11-15): the chained
globs are non-empty iff some file directly in the folder has one of the image
extensions. -/
def contains_images (e : FsEntry) : Bool :=
  e.files.any hasImageSuffix

/-- The exception of `batchltp.guess_images_subfolder`. The Python exception
carries a formatted message; its information content — the project path, the
candidate count `len(candidates)` and the candidate names — is modelled
structurally. -/
inductive GuessError where
  | cannotGuessInputImagesFolder (folder : String) (count : Nat)
      (candidateNames : List String)
deriving DecidableEq

/-- The end of the loop of `guess_images_subfolder` (batchltp.py lines 39-44):
`if len(candidates) == 1: return candidates[0] else: raise ...`. -/
def guessFinish (folderName : String) (cands : List FsEntry) :
    Except GuessError FsEntry :=
  match cands with
  | [c] => .ok c
  | _ => .error (.cannotGuessInputImagesFolder folderName cands.length
      (cands.map FsEntry.name))

/-- The loop of `guess_images_subfolder` (batchltp.py lines 31-37): walk the
entries, return a directory named `images` immediately, collect the other
directories that contain images. -/
def guessAux (folderName : String) (cands : List FsEntry) :
    List FsEntry → Except GuessError FsEntry
  | [] => guessFinish folderName cands
  | e :: rest =>
    if e.isDir then
      if e.name = "images" then .ok e
      else if contains_images e then guessAux folderName (cands ++ [e]) rest
      else guessAux folderName cands rest
    else guessAux folderName cands rest

/-- Model of `batchltp.guess_images_subfolder` (batchltp.py lines 21-44). -/
def guess_images_subfolder (f : Folder) : Except GuessError FsEntry :=
  guessAux f.name [] f.entries

/-- Model of `lazytp.derive_stitched_result_name` (lazytp.py lines 37-44).
The Python code guards the extra component with
`if parsed['optional_description'] is not None`; group 4 of a successful match
is always a (possibly empty) `str`, so whenever parsing succeeds the guard is
true and the component is appended. -/
def derive_stitched_result_name (test_case_name : String) :
    Except PyError String :=
  match parse_test_case_name test_case_name with
  | .error e => .error e
  | .ok parsed =>
    let components := [parsed.id, parsed.dataset_name]
    let components :=
      match parsed.optional_description with
      | some d => components ++ [d]
      | none => components
    .ok (String.intercalate "_" (components ++ ["stitched.tiff"]))

/-- Model of `lazytp.rename_stitched_tiff` (lazytp.py lines 47-52) on the list
of file names in the output directory: if a file named `stitched.tiff` exists,
it is renamed to the derived name. -/
def rename_stitched_tiff (out_subfolder_name : String) (files : List String) :
    Except PyError (List String) :=
  if "stitched.tiff" ∈ files then
    match derive_stitched_result_name out_subfolder_name with
    | .error e => .error e
    | .ok newName =>
      .ok (files.map fun f => if f = "stitched.tiff" then newName else f)
  else .ok files


/-! Helper lemmas about lists, characters and strings. -/

theorem isEmpty_false_of_ne_nil {α} {l : List α} (h : l ≠ []) : l.isEmpty = false := by
  cases l with
  | nil => exact absurd rfl h
  | cons a t => rfl

theorem takeWhile_append_of_all {α} (p : α → Bool) (l r : List α) (h : l.all p) :
    (l ++ r).takeWhile p = l ++ r.takeWhile p := by
  induction l with
  | nil => rfl
  | cons a t ih =>
    simp only [List.all_cons, Bool.and_eq_true] at h
    simp [List.takeWhile_cons, h.1, ih h.2]

theorem dropWhile_append_of_all {α} (p : α → Bool) (l r : List α) (h : l.all p) :
    (l ++ r).dropWhile p = r.dropWhile p := by
  induction l with
  | nil => rfl
  | cons a t ih =>
    simp only [List.all_cons, Bool.and_eq_true] at h
    simp [List.dropWhile_cons, h.1, ih h.2]

theorem takeWhile_of_all {α} (p : α → Bool) (l : List α) (h : l.all p) :
    l.takeWhile p = l := by
  have := takeWhile_append_of_all p l [] h
  simpa using this

theorem dropWhile_of_all {α} (p : α → Bool) (l : List α) (h : l.all p) :
    l.dropWhile p = [] := by
  have := dropWhile_append_of_all p l [] h
  simpa using this

theorem string_data_append (a b : String) : (a ++ b).data = a.data ++ b.data := by
  cases a; cases b; rfl

theorem char_toNat_inj {a b : Char} (h : a.toNat = b.toNat) : a = b :=
  Char.eq_of_val_eq (UInt32.eq_of_toBitVec_eq (BitVec.eq_of_toNat_eq h))

theorem alphanum_not_sep (c : Char) (h : c.isAlphanum = true) :
    isSepSplitChar c = false := by
  simp only [isSepSplitChar, Bool.or_eq_false_iff, beq_eq_false_iff_ne, ne_eq]
  refine ⟨⟨⟨?_, ?_⟩, ?_⟩, ?_⟩ <;> rintro rfl <;> exact absurd h (by decide)

theorem pySplit_of_no_sep (l : List Char) (h : ∀ c ∈ l, isSepSplitChar c = false) :
    pySplit l = [l] := by
  induction l with
  | nil => rfl
  | cons a t ih =>
    have ha := h a (List.mem_cons_self a t)
    have ht := ih fun c hc => h c (List.mem_cons_of_mem a hc)
    simp [pySplit, ha, ht]

theorem camel_case_of_no_sep (s : String)
    (h : ∀ c ∈ s.data, isSepSplitChar c = false) : camel_case s = s := by
  cases s with
  | mk l => simp [camel_case, camelChars, pySplit_of_no_sep l h]

theorem parseChars_of_shape (lid ls lds : List Char)
    (h1 : lid ≠ []) (h2 : lid.all Char.isDigit)
    (h3 : ls ≠ []) (h4 : ls.all Char.isAlphanum)
    (h5 : lds ≠ []) (h6 : lds.all Char.isAlphanum) :
    parseChars (lid ++ '_' :: (ls ++ '_' :: lds)) =
      some ⟨⟨lid⟩, ⟨ls⟩, ⟨lds⟩, some ""⟩ := by
  have hd : Char.isDigit '_' = false := by decide
  have han : Char.isAlphanum '_' = false := by decide
  simp only [parseChars,
    takeWhile_append_of_all Char.isDigit lid _ h2,
    dropWhile_append_of_all Char.isDigit lid _ h2,
    List.takeWhile_cons, List.dropWhile_cons, hd, Bool.false_eq_true, if_false,
    List.append_nil, isEmpty_false_of_ne_nil h1,
    takeWhile_append_of_all Char.isAlphanum ls _ h4,
    dropWhile_append_of_all Char.isAlphanum ls _ h4,
    han, isEmpty_false_of_ne_nil h3,
    takeWhile_of_all Char.isAlphanum lds h6,
    dropWhile_of_all Char.isAlphanum lds h6,
    isEmpty_false_of_ne_nil h5]

theorem parseChars_of_parse_ok {name : String} {r : TestCaseRecord}
    (h : parse_test_case_name name = .ok r) : parseChars name.data = some r := by
  unfold parse_test_case_name at h
  cases hpc : parseChars name.data with
  | some r0 => rw [hpc] at h; cases h; rfl
  | none => rw [hpc] at h; cases h

theorem parseChars_of_shape_trailing_sep (lid ls lds : List Char)
    (h1 : lid ≠ []) (h2 : lid.all Char.isDigit)
    (h3 : ls ≠ []) (h4 : ls.all Char.isAlphanum)
    (h5 : lds ≠ []) (h6 : lds.all Char.isAlphanum) :
    parseChars (lid ++ '_' :: (ls ++ '_' :: (lds ++ ['_']))) =
      some ⟨⟨lid⟩, ⟨ls⟩, ⟨lds⟩, some ""⟩ := by
  have hd : Char.isDigit '_' = false := by decide
  have han : Char.isAlphanum '_' = false := by decide
  simp only [parseChars,
    takeWhile_append_of_all Char.isDigit lid _ h2,
    dropWhile_append_of_all Char.isDigit lid _ h2,
    List.takeWhile_cons, List.dropWhile_cons, hd, Bool.false_eq_true, if_false,
    List.append_nil, isEmpty_false_of_ne_nil h1,
    takeWhile_append_of_all Char.isAlphanum ls _ h4,
    dropWhile_append_of_all Char.isAlphanum ls _ h4,
    han, isEmpty_false_of_ne_nil h3,
    takeWhile_append_of_all Char.isAlphanum lds _ h6,
    dropWhile_append_of_all Char.isAlphanum lds _ h6,
    isEmpty_false_of_ne_nil h5,
    List.takeWhile_nil]

theorem data_ne_nil {s : String} (h : s ≠ "") : s.data ≠ [] := by
  cases s with
  | mk l =>
    intro hl
    apply h
    cases hl
    rfl

theorem parse_of_shape (lid ls lds : List Char)
    (h1 : lid ≠ []) (h2 : lid.all Char.isDigit)
    (h3 : ls ≠ []) (h4 : ls.all Char.isAlphanum)
    (h5 : lds ≠ []) (h6 : lds.all Char.isAlphanum) :
    parse_test_case_name ⟨lid ++ '_' :: (ls ++ '_' :: lds)⟩ =
      .ok ⟨⟨lid⟩, ⟨ls⟩, ⟨lds⟩, some ""⟩ := by
  unfold parse_test_case_name
  rw [show (String.mk (lid ++ '_' :: (ls ++ '_' :: lds))).data =
      lid ++ '_' :: (ls ++ '_' :: lds) from rfl,
    parseChars_of_shape lid ls lds h1 h2 h3 h4 h5 h6]

theorem parse_of_shape_trailing_sep (lid ls lds : List Char)
    (h1 : lid ≠ []) (h2 : lid.all Char.isDigit)
    (h3 : ls ≠ []) (h4 : ls.all Char.isAlphanum)
    (h5 : lds ≠ []) (h6 : lds.all Char.isAlphanum) :
    parse_test_case_name ⟨lid ++ '_' :: (ls ++ '_' :: (lds ++ ['_']))⟩ =
      .ok ⟨⟨lid⟩, ⟨ls⟩, ⟨lds⟩, some ""⟩ := by
  unfold parse_test_case_name
  rw [show (String.mk (lid ++ '_' :: (ls ++ '_' :: (lds ++ ['_'])))).data =
      lid ++ '_' :: (ls ++ '_' :: (lds ++ ['_'])) from rfl,
    parseChars_of_shape_trailing_sep lid ls lds h1 h2 h3 h4 h5 h6]

/-! Claim C1: round-trip of the naming scheme. -/

/-- C1, counterexample: at `(id, revision_tag, dataset_name) = ("001", "abc",
"data")` the round-trip `parse_test_case_name (create_test_case_name ...)`
returns `optional_description = some ""` (the empty string), not
null/absent as the claim states. -/
theorem C1_roundtrip_counterexample :
    parse_test_case_name (create_test_case_name "001" "abc" "data" none) =
      .ok ⟨"001", "abc", "data", some ""⟩ ∧
    parse_test_case_name (create_test_case_name "001" "abc" "data" none) ≠
      .ok ⟨"001", "abc", "data", none⟩ := by
  exact ⟨by decide, by decide⟩

/-- C1 (amended): for every valid id (non-empty, digits), revision_tag
(non-empty, alphanumeric) and dataset_name (non-empty, alphanumeric, hence
already camel-cased and separator-free),
`parse_test_case_name (create_test_case_name id revision_tag dataset_name)`
with no optional description returns a record whose `id`, `sha1` and
`dataset_name` fields equal the inputs and whose `optional_description` is
the empty string `some ""` — not `none`: group 4 of the regex always
captures. -/
theorem C1_roundtrip_amended (idS sha ds : String)
    (h1 : idS ≠ "") (h2 : idS.data.all Char.isDigit)
    (h3 : sha ≠ "") (h4 : sha.data.all Char.isAlphanum)
    (h5 : ds ≠ "") (h6 : ds.data.all Char.isAlphanum) :
    parse_test_case_name (create_test_case_name idS sha ds none) =
      .ok ⟨idS, sha, ds, some ""⟩ := by
  have hds_nosep : ∀ c ∈ ds.data, isSepSplitChar c = false := fun c hc =>
    alphanum_not_sep c (List.all_eq_true.mp h6 c hc)
  have hcamel : camel_case ds = ds := camel_case_of_no_sep ds hds_nosep
  have hdata : create_test_case_name idS sha ds none =
      ⟨idS.data ++ '_' :: (sha.data ++ '_' :: ds.data)⟩ := by
    cases idS with
    | mk lid =>
      cases sha with
      | mk lsha =>
        cases ds with
        | mk lds =>
          simp only [create_test_case_name, SEPARATOR, hcamel]
          apply String.toList_inj.mp
          simp [String.toList, string_data_append]
  rw [hdata]
  have h2a : idS.data.all Char.isDigit = true := h2
  have h4a : sha.data.all Char.isAlphanum = true := h4
  have h6a : ds.data.all Char.isAlphanum = true := h6
  have := parse_of_shape idS.data sha.data ds.data
    (data_ne_nil h1) h2a (data_ne_nil h3) h4a (data_ne_nil h5) h6a
  simpa using this

/-- C1, witness. -/
theorem C1_roundtrip_amended_witness :
    parse_test_case_name (create_test_case_name "007" "9f2c" "snowyHillside" none) =
      .ok ⟨"007", "9f2c", "snowyHillside", some ""⟩ :=
  C1_roundtrip_amended "007" "9f2c" "snowyHillside"
    (by decide) (by decide) (by decide) (by decide) (by decide) (by decide)

/-! Claim C2: the behaviour of camel_case. -/

/-- C2, counterexample: on `"x_MyWord"` the code produces `"xMyword"`
(`str.title()` lower-cases the letters after the first), while the claim
predicts `"xMyWord"` (rest of the component unchanged). -/
theorem C2_camel_case_counterexample :
    camel_case "x_MyWord" = "xMyword" ∧
    camel_case_claimed "x_MyWord" = "xMyWord" ∧
    camel_case "x_MyWord" ≠ camel_case_claimed "x_MyWord" := by
  exact ⟨by decide, by decide, by decide⟩

/-- C2 (amended): `camel_case` splits on the characters underscore, space, dot
and hyphen (splitting at single occurrences; runs only contribute empty
components, which vanish), keeps a separator-free string unchanged, and maps
each later component through Python `str.title()`, which upper-cases the
first letter of each letter run and lower-cases the other letters — so a
component `"MyWord"` becomes `"Myword"`; the spec example still holds. -/
theorem C2_camel_case_amended (s : String)
    (h : ∀ c ∈ s.data, isSepSplitChar c = false) :
    camel_case s = s ∧
    camel_case "one_two.three_four five six-seven.height-nine" =
      "oneTwoThreeFourFiveSixSevenHeightNine" ∧
    camel_case "x_MyWord" = "xMyword" ∧
    camel_case "a__b" = "aB" ∧ camel_case "a_b" = "aB" := by
  exact ⟨camel_case_of_no_sep s h, by decide, by decide, by decide, by decide⟩

/-- C2, witness. -/
theorem C2_camel_case_amended_witness :
    camel_case "word42" = "word42" ∧
    camel_case "one_two.three_four five six-seven.height-nine" =
      "oneTwoThreeFourFiveSixSevenHeightNine" ∧
    camel_case "x_MyWord" = "xMyword" ∧
    camel_case "a__b" = "aB" ∧ camel_case "a_b" = "aB" :=
  C2_camel_case_amended "word42" (by decide)

/-! Claim C3: empty versus absent trailing description. -/

/-- C3, counterexample: `"001_abc_data"` has no trailing separator, yet the
parse returns `optional_description = some ""`, not null/absent as the claim
states. -/
theorem C3_trailing_counterexample :
    parse_test_case_name "001_abc_data" = .ok ⟨"001", "abc", "data", some ""⟩ ∧
    parse_test_case_name "001_abc_data" ≠ .ok ⟨"001", "abc", "data", none⟩ := by
  exact ⟨by decide, by decide⟩

/-- C3 (amended): for every name of the matching shape that ends in a bare
trailing separator (`<digits>_<alnum>_<alnum>_`) the parsed
`optional_description` is the empty string, and for every such name with no
trailing separator at all it is ALSO the empty string — group 4 of the regex
captures a (possibly empty) string in every successful match, so the parser
does not distinguish the two cases and never yields null. -/
theorem C3_trailing_amended (lid ls lds : List Char)
    (h1 : lid ≠ []) (h2 : lid.all Char.isDigit)
    (h3 : ls ≠ []) (h4 : ls.all Char.isAlphanum)
    (h5 : lds ≠ []) (h6 : lds.all Char.isAlphanum) :
    parse_test_case_name ⟨lid ++ '_' :: (ls ++ '_' :: (lds ++ ['_']))⟩ =
      .ok ⟨⟨lid⟩, ⟨ls⟩, ⟨lds⟩, some ""⟩ ∧
    parse_test_case_name ⟨lid ++ '_' :: (ls ++ '_' :: lds)⟩ =
      .ok ⟨⟨lid⟩, ⟨ls⟩, ⟨lds⟩, some ""⟩ :=
  ⟨parse_of_shape_trailing_sep lid ls lds h1 h2 h3 h4 h5 h6,
   parse_of_shape lid ls lds h1 h2 h3 h4 h5 h6⟩

/-- C3, witness: the two shapes at a concrete input, `"001_abc_data_"` and
`"001_abc_data"`. -/
theorem C3_trailing_amended_witness :
    parse_test_case_name ⟨"001".data ++ '_' :: ("abc".data ++ '_' :: ("data".data ++ ['_']))⟩ =
      .ok ⟨⟨"001".data⟩, ⟨"abc".data⟩, ⟨"data".data⟩, some ""⟩ ∧
    parse_test_case_name ⟨"001".data ++ '_' :: ("abc".data ++ '_' :: "data".data)⟩ =
      .ok ⟨⟨"001".data⟩, ⟨"abc".data⟩, ⟨"data".data⟩, some ""⟩ :=
  C3_trailing_amended "001".data "abc".data "data".data
    (by decide) (by decide) (by decide) (by decide) (by decide) (by decide)

/-! Claim C4: the error raised on a non-matching name. -/

/-- C4, counterexample: on the non-matching string `""` the parse fails with
`AttributeError` (from `m.group` on `None`), and in particular not with the
`NotATestCaseNameError` named by the claim — no such error kind exists in the
code. -/
theorem C4_parse_error_counterexample :
    parse_test_case_name "" = .error PyError.attributeError ∧
    parse_test_case_name "" ≠ .error PyError.notATestCaseNameError := by
  exact ⟨by decide, by decide⟩

/-- C4 (amended): for every string on which the pattern does not match at the
start, `parse_test_case_name` fails with the generic `AttributeError` raised
by calling `.group` on `None` — not with a distinct recoverable
`NotATestCaseNameError`, which the repository never defines. -/
theorem C4_parse_error_amended (s : String) (h : parseChars s.data = none) :
    parse_test_case_name s = .error PyError.attributeError ∧
    parse_test_case_name s ≠ .error PyError.notATestCaseNameError := by
  unfold parse_test_case_name
  rw [h]
  exact ⟨rfl, by decide⟩

/-- C4, witness. -/
theorem C4_parse_error_amended_witness :
    parse_test_case_name "not a test case" = .error PyError.attributeError ∧
    parse_test_case_name "not a test case" ≠ .error PyError.notATestCaseNameError :=
  C4_parse_error_amended "not a test case" (by decide)

/-! Claim C9: renaming of stitched.tiff. -/

/-- C9: evaluation of the code at the failing input. For an output directory
named `015_1234567890_snowyHillside` (no optional description), the parse
yields `optional_description = some ""`, the always-true `is not None` guard
appends the empty component, and the derived name is
`015_snowyHillside__stitched.tiff` with a doubled separator — not
`015_snowyHillside_stitched.tiff` as the claim (and the intent of the dead
guard) says. With a description present the claim's second case holds. -/
theorem C9_stitched_rename_eval :
    derive_stitched_result_name "015_1234567890_snowyHillside" =
      .ok "015_snowyHillside__stitched.tiff" ∧
    derive_stitched_result_name "015_1234567890_snowyHillside" ≠
      .ok "015_snowyHillside_stitched.tiff" ∧
    derive_stitched_result_name "015_1234567890_snowyHillside_increasedStepSizeTo42" =
      .ok "015_snowyHillside_increasedStepSizeTo42_stitched.tiff" ∧
    rename_stitched_tiff "015_1234567890_snowyHillside" ["stitched.tiff", "log.txt"] =
      .ok ["015_snowyHillside__stitched.tiff", "log.txt"] := by
  exact ⟨by decide, by decide, by decide, by decide⟩

/-! Claim C10: the grammar does not enforce the id width. -/

/-- C10: any non-empty run of digits is accepted as id — the fixed width is
not enforced — so `1_abc_data` parses with id `1`; taking the plain string
maximum then makes a directory containing `003_abc_data` and `1_abc_data`
yield `get_next_id = "002"`, numerically smaller than the id `003` already
present. -/
theorem C10_id_width_not_enforced (d : String)
    (hne : d ≠ "") (hdig : d.data.all Char.isDigit) :
    is_test_case_name (d ++ "_abc_data") = true ∧
    parse_test_case_name (d ++ "_abc_data") = .ok ⟨d, "abc", "data", some ""⟩ ∧
    get_next_id ["003_abc_data", "1_abc_data"] = "002" ∧
    pyIntOfDigits "002".data < pyIntOfDigits "003".data ∧
    parse_test_case_name "003_abc_data" = .ok ⟨"003", "abc", "data", some ""⟩ := by
  have kd : d ++ "_abc_data" = ⟨d.data ++ '_' :: ("abc".data ++ '_' :: "data".data)⟩ := by
    cases d with
    | mk ld =>
      apply String.toList_inj.mp
      simp [String.toList, string_data_append]
  have hparse := parse_of_shape d.data "abc".data "data".data
    (data_ne_nil hne) hdig (by decide) (by decide) (by decide) (by decide)
  refine ⟨?_, ?_, by decide, by decide, by decide⟩
  · rw [kd]
    have hc := parseChars_of_shape d.data "abc".data "data".data
      (data_ne_nil hne) hdig (by decide) (by decide) (by decide) (by decide)
    unfold is_test_case_name
    rw [show (String.mk (d.data ++ '_' :: ("abc".data ++ '_' :: "data".data))).data =
        d.data ++ '_' :: ("abc".data ++ '_' :: "data".data) from rfl, hc]
    rfl
  · rw [kd]
    simpa using hparse

/-- C10, witness: at `d = "1"`. -/
theorem C10_id_width_not_enforced_witness :
    is_test_case_name ("1" ++ "_abc_data") = true ∧
    parse_test_case_name ("1" ++ "_abc_data") = .ok ⟨"1", "abc", "data", some ""⟩ ∧
    get_next_id ["003_abc_data", "1_abc_data"] = "002" ∧
    pyIntOfDigits "002".data < pyIntOfDigits "003".data ∧
    parse_test_case_name "003_abc_data" = .ok ⟨"003", "abc", "data", some ""⟩ :=
  C10_id_width_not_enforced "1" (by decide) (by decide)

/-! Helper lemmas for increment_id. -/

theorem digitChar_toNat48 : ∀ d, d < 10 → (Nat.digitChar d).toNat = 48 + d := by
  decide

theorem pyInt_natToDigitsAux : ∀ (fuel n : Nat), n ≤ fuel →
    pyIntOfDigits (natToDigitsAux fuel n) = n := by
  intro fuel
  induction fuel with
  | zero =>
    intro n h
    have hn : n = 0 := by omega
    subst hn
    rfl
  | succ f ih =>
    intro n h
    by_cases hn : n = 0
    · subst hn; rfl
    · have hdle : n / 10 ≤ f := by
        have := Nat.div_lt_self (Nat.pos_of_ne_zero hn) (by omega : 1 < 10)
        omega
      have hmod : n % 10 < 10 := Nat.mod_lt _ (by omega)
      have hdc : (Nat.digitChar (n % 10)).toNat = 48 + n % 10 :=
        digitChar_toNat48 _ hmod
      have hrec := ih (n / 10) hdle
      unfold pyIntOfDigits at hrec ⊢
      simp only [natToDigitsAux, hn, if_false, List.foldl_append, hrec,
        List.foldl_cons, List.foldl_nil, hdc]
      omega

theorem natToDigitsAux_length : ∀ (fuel n k : Nat), n ≤ fuel → n < 10 ^ k →
    (natToDigitsAux fuel n).length ≤ k := by
  intro fuel
  induction fuel with
  | zero =>
    intro n k h _
    have hn : n = 0 := by omega
    subst hn
    simp [natToDigitsAux]
  | succ f ih =>
    intro n k h hk
    by_cases hn : n = 0
    · subst hn; simp [natToDigitsAux]
    · have hkpos : k ≠ 0 := by
        rintro rfl
        rw [pow_zero] at hk
        omega
      obtain ⟨k1, rfl⟩ : ∃ k1, k = k1 + 1 := ⟨k - 1, by omega⟩
      have hdle : n / 10 ≤ f := by
        have := Nat.div_lt_self (Nat.pos_of_ne_zero hn) (by omega : 1 < 10)
        omega
      have hdlt : n / 10 < 10 ^ k1 := by
        rw [Nat.div_lt_iff_lt_mul (by omega : 0 < 10)]
        calc n < 10 ^ (k1 + 1) := hk
          _ = 10 ^ k1 * 10 := by rw [pow_succ]
      have := ih (n / 10) k1 hdle hdlt
      simp only [natToDigitsAux, hn, if_false, List.length_append,
        List.length_cons, List.length_nil]
      omega

theorem pyInt_replicate_zero (k : Nat) (l : List Char) :
    pyIntOfDigits (List.replicate k '0' ++ l) = pyIntOfDigits l := by
  induction k with
  | zero => rfl
  | succ k ih =>
    have h0 : (10 * 0 + ('0'.toNat - 48)) = 0 := by decide
    unfold pyIntOfDigits at ih ⊢
    simp only [List.replicate_succ, List.cons_append, List.foldl_cons]
    simpa [h0] using ih

theorem pyStr_eq_zero_iff (m : Nat) : pyStr m = "0" ↔ m = 0 := by
  constructor
  · intro h
    by_contra hm
    unfold pyStr at h
    rw [if_neg hm] at h
    have hdata : natToDigitsAux m m = ['0'] := congrArg String.data h
    have hval := pyInt_natToDigitsAux m m (le_refl m)
    rw [hdata] at hval
    have : pyIntOfDigits ['0'] = 0 := by decide
    omega
  · rintro rfl; rfl

/-! Claim C6: increment_id. -/

/-- C6: for every non-empty string of decimal digits, `increment_id` parses it
as an unsigned integer, adds 1 modulo `10 ^ ID_LEN` (substituting 1 when the
remainder is 0), and re-pads to exactly `ID_LEN = 3` digits; the value of the
result is the substituted remainder, the result is never `"000"`, and
`increment_id "999" = "001"`. -/
theorem C6_increment_id (s : String)
    (h1 : s ≠ "") (h2 : s.data.all Char.isDigit) :
    (increment_id s).data.length = ID_LEN ∧
    increment_id s ≠ "000" ∧
    pyIntOfDigits (increment_id s).data =
      (if (pyIntOfDigits s.data + 1) % 10 ^ ID_LEN = 0 then 1
       else (pyIntOfDigits s.data + 1) % 10 ^ ID_LEN) ∧
    increment_id "999" = "001" := by
  have hpow : (10 : Nat) ^ ID_LEN = 1000 := by norm_num [ID_LEN]
  set m := (pyIntOfDigits s.data + 1) % 10 ^ ID_LEN with hm
  have hmlt : m < 1000 := by
    rw [hm, hpow]
    exact Nat.mod_lt _ (by omega)
  have hinc : increment_id s =
      ⟨List.replicate (ID_LEN - (if pyStr m = "0" then "1" else pyStr m).length) '0'⟩ ++
        (if pyStr m = "0" then "1" else pyStr m) := by
    rw [increment_id, hm]
  set ns := if pyStr m = "0" then "1" else pyStr m with hns
  have hns_len : ns.data.length ≤ 3 := by
    rw [hns]
    by_cases hc : pyStr m = "0"
    · rw [if_pos hc]; decide
    · rw [if_neg hc]
      have hm0 : m ≠ 0 := fun h => hc ((pyStr_eq_zero_iff m).mpr h)
      rw [pyStr, if_neg hm0]
      exact natToDigitsAux_length m m 3 (le_refl m) (by omega)
  have hns_val : pyIntOfDigits ns.data = (if m = 0 then 1 else m) := by
    rw [hns]
    by_cases hc : pyStr m = "0"
    · have hm0 : m = 0 := (pyStr_eq_zero_iff m).mp hc
      rw [if_pos hc, if_pos hm0]
      decide
    · have hm0 : m ≠ 0 := fun h => hc ((pyStr_eq_zero_iff m).mpr h)
      rw [if_neg hc, if_neg hm0, pyStr, if_neg hm0]
      exact pyInt_natToDigitsAux m m (le_refl m)
  have hdata : (increment_id s).data =
      List.replicate (ID_LEN - ns.length) '0' ++ ns.data := by
    rw [hinc, string_data_append]
  have hlen_eq : ns.length = ns.data.length := rfl
  have hval : pyIntOfDigits (increment_id s).data = (if m = 0 then 1 else m) := by
    rw [hdata, pyInt_replicate_zero, hns_val]
  have hge1 : 1 ≤ pyIntOfDigits (increment_id s).data := by
    rw [hval]
    by_cases hm0 : m = 0
    · rw [if_pos hm0]
    · rw [if_neg hm0]; omega
  refine ⟨?_, ?_, ?_, by decide⟩
  · rw [hdata, List.length_append, List.length_replicate, ← hlen_eq, ID_LEN]
    have : ns.length ≤ 3 := by rw [hlen_eq]; exact hns_len
    omega
  · intro heq
    have : pyIntOfDigits (increment_id s).data = 0 := by
      rw [heq]; decide
    omega
  · rw [hval]

/-- C6, witness. -/
theorem C6_increment_id_witness :
    (increment_id "007").data.length = ID_LEN ∧
    increment_id "007" ≠ "000" ∧
    pyIntOfDigits (increment_id "007").data =
      (if (pyIntOfDigits "007".data + 1) % 10 ^ ID_LEN = 0 then 1
       else (pyIntOfDigits "007".data + 1) % 10 ^ ID_LEN) ∧
    increment_id "999" = "001" :=
  C6_increment_id "007" (by decide) (by decide)

/-! Helper lemmas for find_highest_id: pyStrLt is a strict total order and
foldl pyMax computes an attained upper bound. -/

theorem pyStrLt_trans : ∀ (a b c : List Char),
    pyStrLt a b = true → pyStrLt b c = true → pyStrLt a c = true := by
  intro a
  induction a with
  | nil =>
    intro b c h1 h2
    cases b with
    | nil => simp [pyStrLt] at h1
    | cons y ys =>
      cases c with
      | nil => simp [pyStrLt] at h2
      | cons z zs => simp [pyStrLt]
  | cons x xs ih =>
    intro b c h1 h2
    cases b with
    | nil => simp [pyStrLt] at h1
    | cons y ys =>
      cases c with
      | nil => simp [pyStrLt] at h2
      | cons z zs =>
        simp only [pyStrLt] at h1 h2 ⊢
        by_cases hxy : x = y
        · subst hxy
          rw [if_pos rfl] at h1
          by_cases hyz : x = z
          · subst hyz
            rw [if_pos rfl] at h2 ⊢
            exact ih ys zs h1 h2
          · rw [if_neg hyz] at h2 ⊢
            exact h2
        · rw [if_neg hxy] at h1
          have hx : x.toNat < y.toNat := of_decide_eq_true h1
          by_cases hyz : y = z
          · subst hyz
            rw [if_neg hxy]
            exact h1
          · rw [if_neg hyz] at h2
            have hy : y.toNat < z.toNat := of_decide_eq_true h2
            by_cases hxz : x = z
            · subst hxz
              omega
            · rw [if_neg hxz]
              exact decide_eq_true (by omega)

theorem pyStrLt_trichotomy : ∀ (a b : List Char),
    a = b ∨ pyStrLt a b = true ∨ pyStrLt b a = true := by
  intro a
  induction a with
  | nil =>
    intro b
    cases b with
    | nil => exact Or.inl rfl
    | cons y ys => exact Or.inr (Or.inl (by simp [pyStrLt]))
  | cons x xs ih =>
    intro b
    cases b with
    | nil => exact Or.inr (Or.inr (by simp [pyStrLt]))
    | cons y ys =>
      by_cases hxy : x = y
      · subst hxy
        rcases ih ys with h | h | h
        · exact Or.inl (by rw [h])
        · exact Or.inr (Or.inl (by simp [pyStrLt, h]))
        · exact Or.inr (Or.inr (by simp [pyStrLt, h]))
      · have hne : x.toNat ≠ y.toNat := fun h => hxy (char_toNat_inj h)
        by_cases hlt : x.toNat < y.toNat
        · exact Or.inr (Or.inl (by simp [pyStrLt, hxy, hlt]))
        · have hyx : y.toNat < x.toNat := by omega
          have hxy2 : y ≠ x := fun h => hxy h.symm
          exact Or.inr (Or.inr (by simp [pyStrLt, hxy2, hyx]))

theorem foldl_pyMax_mono : ∀ (t : List String) (b c : String),
    (b = c ∨ pyStrLt b.data c.data = true) →
    (b = t.foldl pyMax c ∨ pyStrLt b.data (t.foldl pyMax c).data = true) := by
  intro t
  induction t with
  | nil => intro b c h; simpa using h
  | cons x t ih =>
    intro b c h
    rw [List.foldl_cons]
    apply ih
    unfold pyMax
    by_cases hcx : pyStrLt c.data x.data = true
    · rw [if_pos hcx]
      rcases h with rfl | h
      · exact Or.inr hcx
      · exact Or.inr (pyStrLt_trans _ _ _ h hcx)
    · rw [if_neg hcx]
      exact h

theorem mem_foldl_pyMax : ∀ (t : List String) (h : String),
    t.foldl pyMax h ∈ h :: t := by
  intro t
  induction t with
  | nil => intro h; simp
  | cons x t ih =>
    intro h
    rw [List.foldl_cons]
    rcases List.mem_cons.mp (ih (pyMax h x)) with heq | hmem
    · rw [heq]
      unfold pyMax
      by_cases hhx : pyStrLt h.data x.data = true
      · rw [if_pos hhx]
        exact List.mem_cons_of_mem _ (List.mem_cons_self x t)
      · rw [if_neg hhx]
        exact List.mem_cons_self h _
    · exact List.mem_cons_of_mem _ (List.mem_cons_of_mem _ hmem)

theorem foldl_pyMax_ub : ∀ (t : List String) (h a : String), a ∈ h :: t →
    a = t.foldl pyMax h ∨ pyStrLt a.data (t.foldl pyMax h).data = true := by
  intro t
  induction t with
  | nil =>
    intro h a ha
    exact Or.inl (by simpa using List.mem_singleton.mp ha)
  | cons x t ih =>
    intro h a ha
    rw [List.foldl_cons]
    rcases List.mem_cons.mp ha with rfl | ha2
    · apply foldl_pyMax_mono
      unfold pyMax
      by_cases hhx : pyStrLt a.data x.data = true
      · rw [if_pos hhx]
        exact Or.inr hhx
      · rw [if_neg hhx]
        exact Or.inl rfl
    · rcases List.mem_cons.mp ha2 with rfl | ha3
      · apply foldl_pyMax_mono
        unfold pyMax
        by_cases hhx : pyStrLt h.data a.data = true
        · rw [if_pos hhx]
          exact Or.inl rfl
        · rw [if_neg hhx]
          rcases pyStrLt_trichotomy a.data h.data with heq | hlt | hgt
          · exact Or.inl (String.toList_inj.mp heq)
          · exact Or.inr hlt
          · exact absurd hgt hhx
      · exact ih (pyMax h x) a (List.mem_cons_of_mem _ ha3)

/-! Claim C5: find_highest_id and get_next_id. -/

/-- C5: `find_highest_id` collects the id of every entry whose name satisfies
`is_test_case_name`; the result is a lexicographic upper bound of every such
id and is itself one of them, `"000"` is returned when nothing matches, and
`get_next_id` is `increment_id` of the result — in particular the directory
with entries `001_1234_project1_userDescription` and
`003_1234_project1_userDescription` yields `"004"`, and directories with no
test-case-shaped entries yield `"001"`. -/
theorem C5_find_highest_id (entries : List String) (name : String)
    (r : TestCaseRecord) (hmem : name ∈ entries)
    (hp : parse_test_case_name name = .ok r) :
    (r.id = find_highest_id entries ∨
      pyStrLt r.id.data (find_highest_id entries).data = true) ∧
    (∃ name2 r2, name2 ∈ entries ∧ parse_test_case_name name2 = .ok r2 ∧
      find_highest_id entries = r2.id) ∧
    get_next_id ["001_1234_project1_userDescription",
      "003_1234_project1_userDescription"] = "004" ∧
    get_next_id [] = "001" ∧
    find_highest_id [] = "000" ∧
    get_next_id ["README", "config.ini"] = "001" := by
  have htc : is_test_case_name name = true := by
    unfold is_test_case_name
    rw [parseChars_of_parse_ok hp]
    rfl
  have hmem2 : r.id ∈ (entries.filter is_test_case_name).filterMap
      (fun n => match parse_test_case_name n with
        | .ok r0 => some r0.id
        | .error _ => none) := by
    apply List.mem_filterMap.mpr
    exact ⟨name, List.mem_filter.mpr ⟨hmem, htc⟩, by rw [hp]⟩
  rcases hids : ((entries.filter is_test_case_name).filterMap
      (fun n => match parse_test_case_name n with
        | .ok r0 => some r0.id
        | .error _ => none)) with _ | ⟨h0, t0⟩
  · rw [hids] at hmem2
    exact absurd hmem2 (List.not_mem_nil _)
  · have hfh : find_highest_id entries = t0.foldl pyMax h0 := by
      unfold find_highest_id
      rw [hids]
  
    rw [hids] at hmem2
    refine ⟨?_, ?_, by decide, by decide, by decide, by decide⟩
    · rw [hfh]
      exact foldl_pyMax_ub t0 h0 r.id hmem2
    · have hmem3 := mem_foldl_pyMax t0 h0
      rw [← hids] at hmem3
      obtain ⟨name2, hn2, hfn⟩ := List.mem_filterMap.mp hmem3
      cases hp2 : parse_test_case_name name2 with
      | ok r2 =>
        refine ⟨name2, r2, (List.mem_filter.mp hn2).1, hp2, ?_⟩
        rw [hp2] at hfn
        rw [hfh]
        simpa using hfn.symm
      | error e =>
        rw [hp2] at hfn
        simp at hfn

/-- C5, witness. -/
theorem C5_find_highest_id_witness :
    (("001" : String) = find_highest_id ["001_1234_project1_userDescription",
        "003_1234_project1_userDescription"] ∨
      pyStrLt "001".data (find_highest_id ["001_1234_project1_userDescription",
        "003_1234_project1_userDescription"]).data = true) ∧
    (∃ name2 r2, name2 ∈ ["001_1234_project1_userDescription",
        "003_1234_project1_userDescription"] ∧
      parse_test_case_name name2 = .ok r2 ∧
      find_highest_id ["001_1234_project1_userDescription",
        "003_1234_project1_userDescription"] = r2.id) ∧
    get_next_id ["001_1234_project1_userDescription",
      "003_1234_project1_userDescription"] = "004" ∧
    get_next_id [] = "001" ∧
    find_highest_id [] = "000" ∧
    get_next_id ["README", "config.ini"] = "001" :=
  C5_find_highest_id ["001_1234_project1_userDescription",
      "003_1234_project1_userDescription"]
    "001_1234_project1_userDescription"
    ⟨"001", "1234", "project1", some "userDescription"⟩
    (by decide) (by decide)

/-! Helper lemmas for guess_images_subfolder. -/

theorem guessAux_images (fname : String) :
    ∀ (rest : List FsEntry) (cands : List FsEntry) (e : FsEntry),
      e ∈ rest → e.isDir = true → e.name = "images" →
      (∀ e2 ∈ rest, e2.isDir = true → e2.name = "images" → e2 = e) →
      guessAux fname cands rest = .ok e := by
  intro rest
  induction rest with
  | nil => intro cands e he _ _ _; exact absurd he (List.not_mem_nil _)
  | cons x rest ih =>
    intro cands e he hdir hname huniq
    rcases List.mem_cons.mp he with rfl | he2
    · unfold guessAux
      rw [hdir, hname]
      rfl
    · have hx : x.isDir = true → x.name ≠ "images" ∨ x = e := by
        intro hxd
        by_cases hxn : x.name = "images"
        · exact Or.inr (huniq x (List.mem_cons_self x rest) hxd hxn)
        · exact Or.inl hxn
      have huniq2 : ∀ e2 ∈ rest, e2.isDir = true → e2.name = "images" → e2 = e :=
        fun e2 h2 => huniq e2 (List.mem_cons_of_mem x h2)
      unfold guessAux
      by_cases hxd : x.isDir = true
      · rcases hx hxd with hxn | rfl
        · rw [hxd, if_pos rfl, if_neg hxn]
          by_cases hci : contains_images x = true
          · rw [if_pos hci]
            exact ih (cands ++ [x]) e he2 hdir hname huniq2
          · rw [if_neg hci]
            exact ih cands e he2 hdir hname huniq2
        · rw [hxd, if_pos rfl, hname]
          rfl
      · have : x.isDir = false := by
          cases hxval : x.isDir
          · rfl
          · exact absurd hxval hxd
        rw [this]
        simp only [Bool.false_eq_true, if_false]
        exact ih cands e he2 hdir hname huniq2

theorem guessAux_no_images (fname : String) :
    ∀ (rest : List FsEntry) (cands : List FsEntry),
      (∀ e ∈ rest, e.isDir = true → e.name ≠ "images") →
      guessAux fname cands rest =
        guessFinish fname
          (cands ++ rest.filter (fun e => e.isDir && contains_images e)) := by
  intro rest
  induction rest with
  | nil => intro cands _; rw [List.filter_nil, List.append_nil]; rfl
  | cons x rest ih =>
    intro cands hno
    have hno2 : ∀ e ∈ rest, e.isDir = true → e.name ≠ "images" :=
      fun e h2 => hno e (List.mem_cons_of_mem x h2)
    unfold guessAux
    by_cases hxd : x.isDir = true
    · have hxn : x.name ≠ "images" := hno x (List.mem_cons_self x rest) hxd
      rw [hxd, if_pos rfl, if_neg hxn]
      by_cases hci : contains_images x = true
      · rw [if_pos hci, ih (cands ++ [x]) hno2, List.filter_cons_of_pos]
        · congr 1
          simp
        · rw [hxd, hci]
          rfl
      · have hci2 : contains_images x = false := by
          cases hval : contains_images x
          · rfl
          · exact absurd hval hci
        rw [if_neg hci, ih cands hno2, List.filter_cons_of_neg]
        rw [hci2, Bool.and_false]
        exact Bool.false_ne_true
    · have hxd2 : x.isDir = false := by
        cases hval : x.isDir
        · rfl
        · exact absurd hval hxd
      rw [hxd2]
      simp only [Bool.false_eq_true, if_false]
      rw [ih cands hno2, List.filter_cons_of_neg]
      rw [hxd2, Bool.false_and]
      exact Bool.false_ne_true

/-! Claim C7: a child directory literally named images is trusted. -/

/-- C7: if a project directory has a child directory named `images` (the only
entry of that name — entry names in a real directory are unique), the resolver
returns it via the early return, whatever `files` it contains — in particular
with zero image files — and without consulting `contains_images` on it or on
any other entry. -/
theorem C7_images_folder_trusted (f : Folder) (e : FsEntry)
    (h1 : e ∈ f.entries) (h2 : e.isDir = true) (h3 : e.name = "images")
    (huniq : ∀ e2 ∈ f.entries, e2.isDir = true → e2.name = "images" → e2 = e) :
    guess_images_subfolder f = .ok e :=
  guessAux_images f.name f.entries [] e h1 h2 h3 huniq

/-- C7, witness: the `images` folder is empty while another child holds
images, and is still returned. -/
theorem C7_images_folder_trusted_witness :
    guess_images_subfolder
        ⟨"proj", [⟨"data", true, ["a.tif"]⟩, ⟨"images", true, []⟩]⟩ =
      .ok ⟨"images", true, []⟩ :=
  C7_images_folder_trusted
    ⟨"proj", [⟨"data", true, ["a.tif"]⟩, ⟨"images", true, []⟩]⟩
    ⟨"images", true, []⟩ (by decide) (by decide) (by decide) (by decide)

/-! Claim C8: resolution without an images folder. -/

/-- C8: when no child directory is named `images`, the resolver reduces to the
list of child directories that directly contain a file with an image
extension: a single candidate is returned, and zero or several candidates
raise `CannotGuessInputImagesFolderException` carrying the project path, the
candidate count and the candidate names. -/
theorem C8_candidate_resolution (f : Folder)
    (hno : ∀ e ∈ f.entries, e.isDir = true → e.name ≠ "images") :
    guess_images_subfolder f =
      guessFinish f.name
        (f.entries.filter (fun e => e.isDir && contains_images e)) ∧
    (∀ c, f.entries.filter (fun e => e.isDir && contains_images e) = [c] →
      guess_images_subfolder f = .ok c) ∧
    (∀ cs, cs = f.entries.filter (fun e => e.isDir && contains_images e) →
      cs.length ≠ 1 →
      guess_images_subfolder f = .error
        (.cannotGuessInputImagesFolder f.name cs.length
          (cs.map FsEntry.name))) := by
  have main : guess_images_subfolder f =
      guessFinish f.name
        (f.entries.filter (fun e => e.isDir && contains_images e)) := by
    have := guessAux_no_images f.name f.entries [] hno
    rw [List.nil_append] at this
    exact this
  refine ⟨main, ?_, ?_⟩
  · intro c hc
    rw [main, hc]
    rfl
  · intro cs hcs hlen
    rw [main, ← hcs]
    cases cs with
    | nil => rfl
    | cons a t =>
      cases t with
      | nil => simp at hlen
      | cons b t2 => rfl

/-- C8, witness: a project with two image-bearing subfolders raises the
ambiguity error listing both candidate names, and a single candidate is
returned. -/
theorem C8_candidate_resolution_witness :
    (guess_images_subfolder
        ⟨"proj", [⟨"a", true, ["x.tif"]⟩, ⟨"b", true, ["y.JPG"]⟩,
          ⟨"notes", false, []⟩]⟩ =
      guessFinish "proj"
        (([⟨"a", true, ["x.tif"]⟩, ⟨"b", true, ["y.JPG"]⟩,
          ⟨"notes", false, []⟩] : List FsEntry).filter
            (fun e => e.isDir && contains_images e))) ∧
    (∀ c, ([⟨"a", true, ["x.tif"]⟩, ⟨"b", true, ["y.JPG"]⟩,
          ⟨"notes", false, []⟩] : List FsEntry).filter
            (fun e => e.isDir && contains_images e) = [c] →
      guess_images_subfolder
        ⟨"proj", [⟨"a", true, ["x.tif"]⟩, ⟨"b", true, ["y.JPG"]⟩,
          ⟨"notes", false, []⟩]⟩ = .ok c) ∧
    (∀ cs, cs = ([⟨"a", true, ["x.tif"]⟩, ⟨"b", true, ["y.JPG"]⟩,
          ⟨"notes", false, []⟩] : List FsEntry).filter
            (fun e => e.isDir && contains_images e) →
      cs.length ≠ 1 →
      guess_images_subfolder
        ⟨"proj", [⟨"a", true, ["x.tif"]⟩, ⟨"b", true, ["y.JPG"]⟩,
          ⟨"notes", false, []⟩]⟩ = .error
        (.cannotGuessInputImagesFolder "proj" cs.length
          (cs.map FsEntry.name))) :=
  C8_candidate_resolution
    ⟨"proj", [⟨"a", true, ["x.tif"]⟩, ⟨"b", true, ["y.JPG"]⟩,
      ⟨"notes", false, []⟩]⟩ (by decide)
